import Mathlib

/-!
Verification of the frontend agent-execution client of this repository
(src/frontend/scripts/app.js) against its design specification.

The development shallowly embeds the JavaScript code:

* JSON-like runtime values (the opaque agent result structures) become the
  inductive type `JSValue`, with JavaScript truthiness made explicit.
* `findOutputFile` (the artifact resolver) is translated line by line from
  app.js, including its key-priority checks and pre-order descent.
* The submit handler, progress simulator (`startProgress` / interval tick /
  `stopProgress`) and modal logic (`closeAgent`) become explicit state
  transformers over a `ClientState` record; a timer tick is a function of
  the state plus the random increment drawn by that tick.
* The backend execution dispatcher is not part of the repository snapshot;
  where a claim depends on it, a definition modelled from the spec is used
  and clearly marked as such.
-/

/-- A JavaScript runtime value as seen by the frontend client: the agent
result structures are arbitrarily nested objects/arrays of scalars.
`vNaN` models the NaN number produced for instance by a failed parseInt. -/
inductive JSValue where
  | vNull : JSValue
  | vBool : Bool → JSValue
  | vNum : Int → JSValue
  | vNaN : JSValue
  | vStr : String → JSValue
  | vArr : List JSValue → JSValue
  | vObj : List (String × JSValue) → JSValue

namespace JSValue

/-- JavaScript truthiness: null, false, 0, NaN and the empty string are
falsy; every object and array is truthy. -/
def truthy : JSValue → Bool
  | vNull => false
  | vBool b => b
  | vNum n => n != 0
  | vNaN => false
  | vStr s => s != ""
  | vArr _ => true
  | vObj _ => true

/-- Property access obj[k] on an object literal: the value of the first
binding of key k (JavaScript objects have unique keys, so the first binding
is the binding). -/
def lookupKey (k : String) (fields : List (String × JSValue)) : Option JSValue :=
  (fields.find? (fun p => p.1 == k)).map (fun p => p.2)

/-- The truthiness test `if (obj.k)` of app.js: true exactly when key k is
present with a truthy value. -/
def keyTruthy (k : String) (fields : List (String × JSValue)) : Bool :=
  match lookupKey k fields with
  | some v => truthy v
  | none => false

/-- Whether the value is an object or array, i.e. passes the
`obj && typeof obj === 'object'` guard of findOutputFile. -/
def isContainer : JSValue → Bool
  | vArr _ => true
  | vObj _ => true
  | _ => false

end JSValue

open JSValue

mutual

/-- The artifact resolver of app.js lines 409-420:

function findOutputFile(obj)
  if (not obj or typeof obj is not an object) return null;
  if (obj.pdf) return obj.pdf;
  if (obj.output_file) return obj.output_file;
  if (obj.image_path) return obj.image_path;
  for (const key in obj) ... recurse, return first truthy find
  return null;

Only objects and arrays pass the first guard (null is falsy, scalars are
not of object type).  On an array, the named property reads yield
undefined, which is falsy, so only the element loop remains. -/
def findOutputFile : JSValue → Option JSValue
  | .vObj fields =>
    if keyTruthy "pdf" fields then lookupKey "pdf" fields
    else if keyTruthy "output_file" fields then lookupKey "output_file" fields
    else if keyTruthy "image_path" fields then lookupKey "image_path" fields
    else findFirstFields fields
  | .vArr elems => findFirstArr elems
  | _ => none

/-- The `for (const key in obj)` loop of findOutputFile over an object:
visit the values in key insertion order, return the first truthy
recursive find. -/
def findFirstFields : List (String × JSValue) → Option JSValue
  | [] => none
  | (_, v) :: rest =>
    match findOutputFile v with
    | some r => if truthy r then some r else findFirstFields rest
    | none => findFirstFields rest

/-- The same loop over the index keys of an array. -/
def findFirstArr : List JSValue → Option JSValue
  | [] => none
  | v :: vs =>
    match findOutputFile v with
    | some r => if truthy r then some r else findFirstArr vs
    | none => findFirstArr vs

end

/-- The three well-known artifact key names searched by findOutputFile, in
their priority order. -/
def artifactKeys : List String := ["pdf", "output_file", "image_path"]

mutual

/-- Whether one of the three artifact keys occurs, at any depth, as an
object key of the structure. -/
def containsArtifactKey : JSValue → Bool
  | .vObj fields => hasAnyKeyFields fields
  | .vArr elems => hasAnyKeyArr elems
  | _ => false

/-- Key occurrence over the bindings of an object. -/
def hasAnyKeyFields : List (String × JSValue) → Bool
  | [] => false
  | (k, v) :: rest => artifactKeys.contains k || containsArtifactKey v || hasAnyKeyFields rest

/-- Key occurrence over the elements of an array. -/
def hasAnyKeyArr : List JSValue → Bool
  | [] => false
  | v :: vs => containsArtifactKey v || hasAnyKeyArr vs

end

mutual

/-- Nesting depth of a structure: scalars have depth one, containers one
more than their deepest child. -/
def depth : JSValue → Nat
  | .vObj fields => depthFields fields + 1
  | .vArr elems => depthArr elems + 1
  | _ => 1

/-- Greatest depth among the values of an object. -/
def depthFields : List (String × JSValue) → Nat
  | [] => 0
  | (_, v) :: rest => max (depth v) (depthFields rest)

/-- Greatest depth among the elements of an array. -/
def depthArr : List JSValue → Nat
  | [] => 0
  | v :: vs => max (depth v) (depthArr vs)

end

mutual

/-- Fuel-bounded variant of findOutputFile: consumes one unit of fuel per
level of descent and gives up (returns none) when the fuel is exhausted.
Used to express that the traversal of findOutputFile is bounded by the
depth of the input tree. -/
def findOutputFileF : Nat → JSValue → Option JSValue
  | 0, _ => none
  | fuel + 1, .vObj fields =>
    if keyTruthy "pdf" fields then lookupKey "pdf" fields
    else if keyTruthy "output_file" fields then lookupKey "output_file" fields
    else if keyTruthy "image_path" fields then lookupKey "image_path" fields
    else findFirstFieldsF fuel fields
  | fuel + 1, .vArr elems => findFirstArrF fuel elems
  | _ + 1, _ => none

/-- Fuel-bounded loop over object bindings. -/
def findFirstFieldsF : Nat → List (String × JSValue) → Option JSValue
  | _, [] => none
  | fuel, (_, v) :: rest =>
    match findOutputFileF fuel v with
    | some r => if truthy r then some r else findFirstFieldsF fuel rest
    | none => findFirstFieldsF fuel rest

/-- Fuel-bounded loop over array elements. -/
def findFirstArrF : Nat → List JSValue → Option JSValue
  | _, [] => none
  | fuel, v :: vs =>
    match findOutputFileF fuel v with
    | some r => if truthy r then some r else findFirstArrF fuel vs
    | none => findFirstArrF fuel vs

end

/-- Whether a character is one of the two path separators matched by the
regular expression of renderResult, slash or backslash. -/
def isSep (c : Char) : Bool := c == '/' || c == '\\'

/-- JavaScript String.prototype.split with a single-character-class
separator: the empty string splits to one empty segment, and every
separator occurrence ends the current segment and starts a new one, so the
result is always non-empty. -/
def jsSplit (p : Char → Bool) : List Char → List (List Char)
  | [] => [[]]
  | c :: cs =>
    match jsSplit p cs with
    | [] => [[]]
    | seg :: rest => if p c then [] :: seg :: rest else (c :: seg) :: rest

/-- The filename derivation of renderResult line 395:
file.split(regex of slash or backslash).pop() — the final segment of the
artifact path. -/
def downloadName (path : List Char) : List Char :=
  (jsSplit isSep path).getLastD []

/-- String-level wrapper of downloadName. -/
def downloadNameOf (path : String) : String :=
  String.mk (downloadName path.data)

/-- The download link URL built by renderResult line 396:
the string /files/ followed by the derived filename. -/
def downloadHrefOf (path : String) : String :=
  "/files/" ++ downloadNameOf path

/-- Modelled from the spec wording, for comparison with the split-and-pop
code: the final path segment of a path, i.e. the suffix after the last
separator (the whole path when it has no separator). -/
def finalSegmentSpec (p : Char → Bool) : List Char → List Char
  | [] => []
  | c :: cs => if cs.any p then finalSegmentSpec p cs else if p c then cs else c :: cs

/-- Digit value in a radix, for the digits accepted by parseInt. -/
def digitVal? (radix : Nat) (c : Char) : Option Nat :=
  let v : Nat :=
    if '0' ≤ c ∧ c ≤ '9' then c.toNat - '0'.toNat
    else if 'a' ≤ c ∧ c ≤ 'z' then c.toNat - 'a'.toNat + 10
    else if 'A' ≤ c ∧ c ≤ 'Z' then c.toNat - 'A'.toNat + 10
    else 99
  if v < radix then some v else none

/-- JavaScript parseInt with no radix argument, as used by the option
gathering of the submit handler: skip leading whitespace, read an optional
sign, detect a hexadecimal 0x prefix, then read the longest prefix of
digits; no digit at all yields NaN, modelled as none. -/
def jsParseInt (s : String) : Option Int :=
  let cs := s.data.dropWhile Char.isWhitespace
  let signAndRest : Int × List Char :=
    match cs with
    | '-' :: rest => (-1, rest)
    | '+' :: rest => (1, rest)
    | rest => (1, rest)
  let radixAndRest : Nat × List Char :=
    match signAndRest.2 with
    | '0' :: 'x' :: rest => (16, rest)
    | '0' :: 'X' :: rest => (16, rest)
    | rest => (10, rest)
  let digits := radixAndRest.2.takeWhile (fun c => (digitVal? radixAndRest.1 c).isSome)
  if digits.isEmpty then none
  else some (signAndRest.1 *
    (digits.foldl (fun acc c => acc * radixAndRest.1 + ((digitVal? radixAndRest.1 c).getD 0)) 0 : Nat))

/-- JavaScript String.prototype.trim: remove whitespace from both ends. -/
def jsTrim (s : String) : String :=
  String.mk (((s.data.dropWhile Char.isWhitespace).reverse.dropWhile Char.isWhitespace).reverse)

/-- One form control inside the options container: its name attribute, its
type (number for numeric inputs, otherwise text or select-one) and its
current string value. -/
structure FormField where
  name : String
  fieldType : String
  value : String

/-- The option-gathering loop of the submit handler (app.js lines 290-293):
each control contributes one binding; a number control's value goes through
parseInt (NaN — vNaN — when unparsable), every other value is kept as a
string. -/
def coerceField (f : FormField) : String × JSValue :=
  (f.name,
    if f.fieldType == "number" then
      match jsParseInt f.value with
      | some n => .vNum n
      | none => .vNaN
    else .vStr f.value)

/-- The options object sent in the request body. -/
def gatherOptions (fields : List FormField) : List (String × JSValue) :=
  fields.map coerceField

/-- What the submit handler does before any network activity: nothing when
no agent is selected, focus the topic input when the trimmed topic is
empty, otherwise issue the execution request. -/
inductive SubmitAction where
  | noop : SubmitAction
  | focusInput : SubmitAction
  | request : String → String → List (String × JSValue) → SubmitAction

/-- The guard section of elements.submitBtn.onclick (app.js lines 284-293):
return when state.currentAgent is null; trim the topic and focus the input
without any request when it is empty; otherwise build the request payload
from the current agent id, the trimmed topic, and the gathered options. -/
def submitAction (currentAgent : Option String) (topicRaw : String)
    (fields : List FormField) : SubmitAction :=
  match currentAgent with
  | none => .noop
  | some agentId =>
    let topic := jsTrim topicRaw
    if topic == "" then .focusInput
    else .request agentId topic (gatherOptions fields)

/-- The observable client state manipulated by app.js: the module-level
state object (current agent, progress interval handle, abstracted to an
active flag plus the width counter captured by the interval closure) and
the DOM pieces the claims are about (progress bar width and phase texts,
submit button disabled flag, modal overlay, result area, download link). -/
structure ClientState where
  timerActive : Bool
  width : ℚ
  barWidth : ℚ
  statusText : String
  detailText : String
  btnDisabled : Bool
  modalActive : Bool
  currentAgent : Option String
  progressVisible : Bool
  resultVisible : Bool
  errorText : Option String
  downloadLink : Option String

/-- The rotating phase labels of the progress tick. -/
def progressSteps : List String :=
  ["Analyzing intent...", "Loading external tools...", "Generating solution...", "Formatting output..."]

/-- The phase label chosen by a tick:
steps[Math.floor((width / 100) * steps.length)] with the or-fallback
string Processing... when the index is out of range (undefined) or the
entry is falsy. -/
def stepLabel (w : ℚ) : String :=
  let i : Int := Int.floor (w / 100 * (progressSteps.length : ℚ))
  let entry := if 0 ≤ i then progressSteps.getD i.toNat "" else ""
  if entry == "" then "Processing..." else entry

/-- startProgress (app.js lines 338-359) without its interval body: show
the progress container, hide the result area, reset the status text and
the bar to zero width, reset the closure counter, and install the new
interval (timer active). -/
def startProgress (s : ClientState) : ClientState :=
  { s with progressVisible := true,
           resultVisible := false,
           statusText := "Initializing Agents...",
           barWidth := 0,
           width := 0,
           timerActive := true }

/-- One firing of the interval callback of startProgress, given the value
r of Math.random() * 10 drawn by this tick.  The callback first clears the
interval when the counter has already reached 90 (that clearing only stops
future firings, the rest of the body still runs), then advances the
counter, displays it clamped to 90, and updates the phase label.  No tick
fires when the timer is not active. -/
def tick (r : ℚ) (s : ClientState) : ClientState :=
  if s.timerActive then
    let w := s.width + r
    { s with timerActive := if 90 ≤ s.width then false else s.timerActive,
             width := w,
             barWidth := min w 90,
             detailText := stepLabel w }
  else s

/-- A run of the simulator: the ticks that fire before the next external
event, with the increments each of them draws. -/
def runTicks (incs : List ℚ) (s : ClientState) : ClientState :=
  incs.foldl (fun st r => tick r st) s

/-- stopProgress (app.js lines 361-369): clear the stored interval, force
the bar to 100 percent and the phase label to Complete.  The delayed
cleanup body is commented out in the source and does nothing. -/
def stopProgress (s : ClientState) : ClientState :=
  { s with timerActive := false, barWidth := 100, detailText := "Complete" }

/-- closeAgent (app.js lines 273-278): deactivate the modal overlay and,
after a 300 millisecond delay, null the current agent.  Both effects are
modelled as applied; note that no part of closeAgent touches the progress
interval. -/
def closeAgent (s : ClientState) : ClientState :=
  { s with modalActive := false, currentAgent := none }

/-- showError (app.js lines 422-433): render the error text and activate
the result area. -/
def showError (msg : String) (s : ClientState) : ClientState :=
  { s with errorText := some msg, resultVisible := true }

/-- renderResult (app.js lines 371-407) restricted to the state the claims
observe: the result area becomes visible and the download link is set from
the artifact found by findOutputFile — its filename is the final path
segment and the href points under /files/.  When no artifact is found the
link is hidden (none).  A truthy non-string artifact would make the real
code raise on .split before setting the link; no link is recorded for that
case, which no claim exercises. -/
def renderResult (result : JSValue) (s : ClientState) : ClientState :=
  { s with resultVisible := true,
           downloadLink :=
             match findOutputFile result with
             | some (.vStr p) => some (downloadHrefOf p)
             | _ => none }

/-- The beginning of the submit handler once the guards have passed
(app.js lines 296-299): disable the submit button, switch it to its
processing label, and start the progress simulator. -/
def submitStart (s : ClientState) : ClientState :=
  startProgress { s with btnDisabled := true }

/-- A concrete client state as after page load with the quiz agent modal
open: no timer, empty progress, submit button enabled. -/
def initState : ClientState :=
  { timerActive := false, width := 0, barWidth := 0, statusText := "", detailText := "",
    btnDisabled := false, modalActive := true, currentAgent := some "quiz_gen",
    progressVisible := false, resultVisible := false, errorText := none, downloadLink := none }

/-- How the awaited network call comes back: a parsed body with
success true, a parsed body with success false carrying a detail string,
or a thrown transport error carrying a message. -/
inductive Outcome where
  | success : JSValue → Outcome
  | failure : String → Outcome
  | thrown : String → Outcome

/-- The continuation of the submit handler when the fetch settles
(app.js lines 312-328): render the result on success, show the error
detail on failure, show the thrown message on a transport error; then the
finally block re-enables the submit button, restores its label and calls
stopProgress — in every one of the three cases. -/
def resolveSubmission (o : Outcome) (s : ClientState) : ClientState :=
  let s1 :=
    match o with
    | .success r => renderResult r s
    | .failure d => showError d s
    | .thrown m => showError m s
  stopProgress { s1 with btnDisabled := false }

/-- An option definition of the registry schema: its name and its declared
kind (text, number or select). -/
structure OptionDef where
  name : String
  kind : String

/-- The pre-invocation rejection classes of the dispatcher taxonomy. -/
inductive ExecError where
  | unknownAgent : ExecError
  | invalidInput : ExecError
  | invalidOption : ExecError
  deriving DecidableEq

/-- The dispatcher result envelope: a successful opaque result or a
structured error. -/
inductive ExecResult where
  | ok : JSValue → ExecResult
  | err : ExecError → ExecResult

/-- Modelled from the spec: coercion of one option value to a declared
number kind — an integer is kept, a string goes through integer parsing,
anything unparsable is a coercion failure. -/
def coerceToInt : JSValue → Option Int
  | .vNum n => some n
  | .vStr s => jsParseInt s
  | _ => none

/-- Modelled from the spec: option coercion of the dispatcher, validation
step three — each option bound in the request is coerced to the kind its
matching definition declares (number parsed as an integer, failure when
unparsable); options absent from the schema pass through unchanged. -/
def coerceOptions (schema : List OptionDef) : List (String × JSValue) → Option (List (String × JSValue))
  | [] => some []
  | (k, v) :: rest =>
    match coerceOptions schema rest with
    | none => none
    | some restC =>
      match schema.find? (fun d => d.name == k) with
      | none => some ((k, v) :: restC)
      | some d =>
        if d.kind == "number" then
          match coerceToInt v with
          | some n => some ((k, .vNum n) :: restC)
          | none => none
        else some ((k, v) :: restC)

/-- Modelled from the spec: the backend Execution Dispatcher behind
POST /api/execute, whose implementation is not part of this repository
snapshot.  Validation order: unknown agent id, then empty trimmed topic,
then option coercion; only a fully validated request invokes the agent
handler.  The second component counts handler invocations so that
rejection before invocation is observable. -/
def execute (registry : List String) (schema : String → List OptionDef)
    (handler : String → String → List (String × JSValue) → JSValue)
    (agentId topic : String) (opts : List (String × JSValue)) : ExecResult × Nat :=
  if ¬ registry.contains agentId then (.err .unknownAgent, 0)
  else if jsTrim topic == "" then (.err .invalidInput, 0)
  else
    match coerceOptions (schema agentId) opts with
    | none => (.err .invalidOption, 0)
    | some coerced => (.ok (handler agentId topic coerced), 1)

/-- Strong induction principle for the nested inductive JSValue: to prove a
property of every value it suffices to prove it of each constructor given
the property for every object field value and every array element. -/
theorem JSValue.strongInd {motive : JSValue → Prop}
    (hnull : motive .vNull)
    (hbool : ∀ b, motive (.vBool b))
    (hnum : ∀ n, motive (.vNum n))
    (hnan : motive .vNaN)
    (hstr : ∀ s, motive (.vStr s))
    (harr : ∀ elems, (∀ v ∈ elems, motive v) → motive (.vArr elems))
    (hobj : ∀ fields, (∀ p ∈ fields, motive p.2) → motive (.vObj fields)) :
    ∀ v, motive v
  | .vNull => hnull
  | .vBool b => hbool b
  | .vNum n => hnum n
  | .vNaN => hnan
  | .vStr s => hstr s
  | .vArr elems => harr elems (fun v hv =>
      have : sizeOf v < 1 + sizeOf elems := by
        have h1 := List.sizeOf_lt_of_mem hv
        omega
      JSValue.strongInd hnull hbool hnum hnan hstr harr hobj v)
  | .vObj fields => hobj fields (fun p hp =>
      have : sizeOf p.2 < 1 + sizeOf fields := by
        have h1 := List.sizeOf_lt_of_mem hp
        have h2 : sizeOf p.2 < sizeOf p := by
          cases p with
          | mk a b => simp_arith
        omega
      JSValue.strongInd hnull hbool hnum hnan hstr harr hobj p.2)
  termination_by v => sizeOf v

example :
    findOutputFile (.vObj [("questions", .vArr [.vStr "q1"]), ("pdf", .vStr "quiz_123.pdf")])
      = some (.vStr "quiz_123.pdf") := by
  simp [findOutputFile, findFirstFields, findFirstArr, keyTruthy, lookupKey, truthy]

example :
    findOutputFile (.vObj [("output_file", .vStr "notes.txt"),
      ("report", .vObj [("pdf", .vStr "report.pdf")])])
      = some (.vStr "notes.txt") := by
  simp [findOutputFile, findFirstFields, findFirstArr, keyTruthy, lookupKey, truthy]

lemma findFirstFields_eq_none (fields : List (String × JSValue))
    (h : ∀ p ∈ fields, findOutputFile p.2 = none) : findFirstFields fields = none := by
  induction fields with
  | nil => simp [findFirstFields]
  | cons p rest ih =>
    obtain ⟨k, v⟩ := p
    have hv : findOutputFile v = none := h (k, v) (by simp)
    rw [findFirstFields, hv]
    exact ih (fun q hq => h q (by simp [hq]))

lemma findFirstArr_eq_none (elems : List JSValue)
    (h : ∀ v ∈ elems, findOutputFile v = none) : findFirstArr elems = none := by
  induction elems with
  | nil => simp [findFirstArr]
  | cons v vs ih =>
    have hv : findOutputFile v = none := h v (by simp)
    rw [findFirstArr, hv]
    exact ih (fun w hw => h w (by simp [hw]))

lemma lookupKey_eq_none (k : String) (fields : List (String × JSValue))
    (h : ∀ p ∈ fields, p.1 ≠ k) : lookupKey k fields = none := by
  unfold lookupKey
  rw [List.find?_eq_none.mpr]
  · rfl
  · intro p hp
    simp [h p hp]

lemma hasAnyKeyFields_false {fields : List (String × JSValue)}
    (h : hasAnyKeyFields fields = false) :
    ∀ p ∈ fields, artifactKeys.contains p.1 = false ∧ containsArtifactKey p.2 = false := by
  induction fields with
  | nil => simp
  | cons q rest ih =>
    obtain ⟨k, v⟩ := q
    rw [hasAnyKeyFields] at h
    simp only [Bool.or_eq_false_iff] at h
    intro p hp
    rcases List.mem_cons.mp hp with hEq | hMem
    · subst hEq
      exact ⟨h.1.1, h.1.2⟩
    · exact ih h.2 p hMem

lemma hasAnyKeyArr_false {elems : List JSValue}
    (h : hasAnyKeyArr elems = false) : ∀ v ∈ elems, containsArtifactKey v = false := by
  induction elems with
  | nil => simp
  | cons w vs ih =>
    rw [hasAnyKeyArr] at h
    simp only [Bool.or_eq_false_iff] at h
    intro v hv
    rcases List.mem_cons.mp hv with hEq | hMem
    · subst hEq
      exact h.1
    · exact ih h.2 v hMem

lemma keyTruthy_false_of_noKey {fields : List (String × JSValue)} {k : String}
    (hk : artifactKeys.contains k = true)
    (h : hasAnyKeyFields fields = false) : keyTruthy k fields = false := by
  have hnone : lookupKey k fields = none := by
    apply lookupKey_eq_none
    intro p hp hEq
    have := (hasAnyKeyFields_false h p hp).1
    rw [hEq] at this
    rw [this] at hk
    exact Bool.false_ne_true hk
  simp [keyTruthy, hnone]

lemma findOutputFile_eq_none_of_noKey :
    ∀ v, containsArtifactKey v = false → findOutputFile v = none := by
  intro v
  induction v using JSValue.strongInd with
  | hnull => intro _; rfl
  | hbool b => intro _; rfl
  | hnum n => intro _; rfl
  | hnan => intro _; rfl
  | hstr s => intro _; rfl
  | harr elems ih =>
    intro h
    rw [containsArtifactKey] at h
    rw [findOutputFile]
    exact findFirstArr_eq_none elems (fun v hv => ih v hv (hasAnyKeyArr_false h v hv))
  | hobj fields ih =>
    intro h
    rw [containsArtifactKey] at h
    rw [findOutputFile,
      keyTruthy_false_of_noKey (k := "pdf") (by decide) h,
      keyTruthy_false_of_noKey (k := "output_file") (by decide) h,
      keyTruthy_false_of_noKey (k := "image_path") (by decide) h]
    simp only [if_false, Bool.false_eq_true]
    exact findFirstFields_eq_none fields
      (fun p hp => ih p hp (hasAnyKeyFields_false h p hp).2)

lemma findFirstFields_truthy (fields : List (String × JSValue)) (r : JSValue)
    (h : findFirstFields fields = some r) : truthy r = true := by
  induction fields with
  | nil => rw [findFirstFields] at h; cases h
  | cons p rest ih =>
    obtain ⟨k, v⟩ := p
    rw [findFirstFields] at h
    cases hfv : findOutputFile v with
    | none => rw [hfv] at h; exact ih h
    | some r0 =>
      rw [hfv] at h
      by_cases ht : truthy r0 = true
      · simp only [ht, if_true] at h
        cases h
        exact ht
      · simp only [Bool.not_eq_true] at ht
        simp only [ht, Bool.false_eq_true, if_false] at h
        exact ih h

lemma findFirstArr_truthy (elems : List JSValue) (r : JSValue)
    (h : findFirstArr elems = some r) : truthy r = true := by
  induction elems with
  | nil => rw [findFirstArr] at h; cases h
  | cons v vs ih =>
    rw [findFirstArr] at h
    cases hfv : findOutputFile v with
    | none => rw [hfv] at h; exact ih h
    | some r0 =>
      rw [hfv] at h
      by_cases ht : truthy r0 = true
      · simp only [ht, if_true] at h
        cases h
        exact ht
      · simp only [Bool.not_eq_true] at ht
        simp only [ht, Bool.false_eq_true, if_false] at h
        exact ih h

lemma truthy_of_keyTruthy {k : String} {fields : List (String × JSValue)} {r : JSValue}
    (hl : lookupKey k fields = some r) (ht : keyTruthy k fields = true) : truthy r = true := by
  rw [keyTruthy, hl] at ht
  exact ht

/-- Claim C10: findOutputFile treats an artifact key bound to a falsy
value (empty string, 0, null, false, NaN) as absent.  First part: any
value it returns is truthy.  Second part: when all three artifact keys at
a node are absent or falsy, the resolver moves on to the node's children
rather than returning the falsy value or stopping. -/
theorem findOutputFile_skips_falsy_artifact_values :
    (∀ v r, findOutputFile v = some r → truthy r = true) ∧
    (∀ fields, keyTruthy "pdf" fields = false → keyTruthy "output_file" fields = false →
      keyTruthy "image_path" fields = false →
      findOutputFile (.vObj fields) = findFirstFields fields) := by
  constructor
  · intro v r h
    cases v with
    | vObj fields =>
      rw [findOutputFile] at h
      by_cases h1 : keyTruthy "pdf" fields = true
      · rw [if_pos h1] at h
        exact truthy_of_keyTruthy h h1
      · rw [if_neg h1] at h
        by_cases h2 : keyTruthy "output_file" fields = true
        · rw [if_pos h2] at h
          exact truthy_of_keyTruthy h h2
        · rw [if_neg h2] at h
          by_cases h3 : keyTruthy "image_path" fields = true
          · rw [if_pos h3] at h
            exact truthy_of_keyTruthy h h3
          · rw [if_neg h3] at h
            exact findFirstFields_truthy fields r h
    | vArr elems =>
      rw [findOutputFile] at h
      exact findFirstArr_truthy elems r h
    | vNull => cases h
    | vBool b => cases h
    | vNum n => cases h
    | vNaN => cases h
    | vStr s => cases h
  · intro fields h1 h2 h3
    rw [findOutputFile]
    simp [h1, h2, h3]

/-- Witness for C10 at concrete inputs: a structure whose root binds all
three artifact keys to falsy values and hides a real artifact deeper; the
returned artifact is the truthy deep one, and the root keys are skipped. -/
theorem findOutputFile_skips_falsy_artifact_values_witness :
    truthy (.vStr "real.pdf") = true ∧
    findOutputFile (.vObj [("pdf", .vStr ""), ("output_file", .vNull),
      ("image_path", .vNum 0), ("nested", .vObj [("pdf", .vStr "real.pdf")])])
      = findFirstFields [("pdf", .vStr ""), ("output_file", .vNull),
          ("image_path", .vNum 0), ("nested", .vObj [("pdf", .vStr "real.pdf")])] := by
  constructor
  · exact findOutputFile_skips_falsy_artifact_values.1
      (.vObj [("pdf", .vStr ""), ("output_file", .vNull),
        ("image_path", .vNum 0), ("nested", .vObj [("pdf", .vStr "real.pdf")])])
      (.vStr "real.pdf") rfl
  · exact findOutputFile_skips_falsy_artifact_values.2
      [("pdf", .vStr ""), ("output_file", .vNull),
        ("image_path", .vNum 0), ("nested", .vObj [("pdf", .vStr "real.pdf")])]
      rfl rfl rfl

lemma depth_pos (v : JSValue) : 1 ≤ depth v := by
  cases v <;> simp [depth]

lemma findFirstFieldsF_eq (g : ℕ)
    (ihg : ∀ v, depth v ≤ g → findOutputFileF g v = findOutputFile v) :
    ∀ fields, depthFields fields ≤ g → findFirstFieldsF g fields = findFirstFields fields := by
  intro fields
  induction fields with
  | nil => intro _; rw [findFirstFieldsF, findFirstFields]
  | cons p rest ih =>
    obtain ⟨k, v⟩ := p
    intro h
    rw [depthFields] at h
    have hv : depth v ≤ g := le_trans (le_max_left _ _) h
    have hr : depthFields rest ≤ g := le_trans (le_max_right _ _) h
    rw [findFirstFieldsF, findFirstFields, ihg v hv, ih hr]

lemma findFirstArrF_eq (g : ℕ)
    (ihg : ∀ v, depth v ≤ g → findOutputFileF g v = findOutputFile v) :
    ∀ elems, depthArr elems ≤ g → findFirstArrF g elems = findFirstArr elems := by
  intro elems
  induction elems with
  | nil => intro _; rw [findFirstArrF, findFirstArr]
  | cons v vs ih =>
    intro h
    rw [depthArr] at h
    have hv : depth v ≤ g := le_trans (le_max_left _ _) h
    have hr : depthArr vs ≤ g := le_trans (le_max_right _ _) h
    rw [findFirstArrF, findFirstArr, ihg v hv, ih hr]

/-- Claim C9: the traversal of findOutputFile is bounded by the structure
of its input — on every finite acyclic structure, the fuel-bounded
traversal already agrees with findOutputFile once the fuel covers the
nesting depth of the tree, so the recursion is well-founded on the input
tree (and indeed findOutputFile is accepted by Lean as a total
function). -/
theorem findOutputFileF_eq_of_depth_le :
    ∀ (fuel : ℕ) (v : JSValue), depth v ≤ fuel → findOutputFileF fuel v = findOutputFile v := by
  intro fuel
  induction fuel with
  | zero =>
    intro v h
    have := depth_pos v
    omega
  | succ g ih =>
    intro v h
    cases v with
    | vObj fields =>
      rw [depth] at h
      have hf : depthFields fields ≤ g := by omega
      rw [findOutputFileF, findOutputFile, findFirstFieldsF_eq g ih fields hf]
    | vArr elems =>
      rw [depth] at h
      have hf : depthArr elems ≤ g := by omega
      rw [findOutputFileF, findOutputFile, findFirstArrF_eq g ih elems hf]
    | vNull => rfl
    | vBool b => rfl
    | vNum n => rfl
    | vNaN => rfl
    | vStr s => rfl

/-- Witness for C9 at a concrete input: a three-level structure is fully
traversed with fuel five. -/
theorem findOutputFileF_eq_of_depth_le_witness :
    findOutputFileF 5 (.vObj [("a", .vArr [.vObj [("pdf", .vStr "x.pdf")]])])
      = findOutputFile (.vObj [("a", .vArr [.vObj [("pdf", .vStr "x.pdf")]])]) :=
  findOutputFileF_eq_of_depth_le 5
    (.vObj [("a", .vArr [.vObj [("pdf", .vStr "x.pdf")]])]) (by decide)

/-- Claim C1, counterexample: the claim asserts that the value of pdf is
returned even when pdf sits at a different nesting depth than output_file
or image_path.  In this structure pdf is present (one level deeper than
output_file), yet findOutputFile returns the output_file value found
earlier in pre-order, not the pdf value. -/
theorem findOutputFile_prefers_earlier_key_over_deeper_pdf :
    findOutputFile (.vObj [("output_file", .vStr "notes.txt"),
      ("report", .vObj [("pdf", .vStr "report.pdf")])])
      = some (.vStr "notes.txt") ∧
    ("notes.txt" : String) ≠ "report.pdf" := by
  exact ⟨rfl, by decide⟩

/-- Claim C1 as amended: at the node findOutputFile examines, the pdf key
takes priority — whenever pdf is bound to a truthy value at the root of
the structure passed in, that value is returned, even if output_file or
image_path also exist at the same node or in nested nodes.  A truthy
artifact key reached strictly earlier in pre-order traversal, however,
wins over a deeper pdf. -/
theorem findOutputFile_root_pdf_priority (fields : List (String × JSValue)) (v : JSValue)
    (hl : lookupKey "pdf" fields = some v) (ht : truthy v = true) :
    findOutputFile (.vObj fields) = some v := by
  have hk : keyTruthy "pdf" fields = true := by rw [keyTruthy, hl]; exact ht
  rw [findOutputFile, if_pos hk]
  exact hl

/-- Witness for the amended C1: pdf at the root node wins over an
output_file at the same node and an image_path in a nested node. -/
theorem findOutputFile_root_pdf_priority_witness :
    findOutputFile (.vObj [("output_file", .vStr "o.txt"), ("pdf", .vStr "r.pdf"),
      ("nested", .vObj [("image_path", .vStr "i.png")])])
      = some (.vStr "r.pdf") :=
  findOutputFile_root_pdf_priority
    [("output_file", .vStr "o.txt"), ("pdf", .vStr "r.pdf"),
      ("nested", .vObj [("image_path", .vStr "i.png")])]
    (.vStr "r.pdf") rfl rfl

/-- Claim C4: on any structure that contains none of the keys pdf,
output_file, image_path at any depth, and on any input that is not itself
an object or array (null and scalars included), findOutputFile returns
null; being a total Lean function over JSValue it can raise no
exception. -/
theorem findOutputFile_none_when_no_artifact_key (v : JSValue) :
    (containsArtifactKey v = false → findOutputFile v = none) ∧
    (isContainer v = false → findOutputFile v = none) := by
  constructor
  · exact findOutputFile_eq_none_of_noKey v
  · intro h
    cases v with
    | vArr elems => simp [isContainer] at h
    | vObj fields => simp [isContainer] at h
    | vNull => rfl
    | vBool b => rfl
    | vNum n => rfl
    | vNaN => rfl
    | vStr s => rfl

/-- Witness for C4 at concrete inputs: a nested structure free of all
three keys, and a scalar. -/
theorem findOutputFile_none_when_no_artifact_key_witness :
    findOutputFile (.vObj [("a", .vArr [.vObj [("b", .vStr "x")]])]) = none ∧
    findOutputFile (.vStr "just a string") = none := by
  constructor
  · exact (findOutputFile_none_when_no_artifact_key _).1 (by decide)
  · exact (findOutputFile_none_when_no_artifact_key _).2 (by decide)

lemma jsSplit_ne_nil (p : Char → Bool) (cs : List Char) : jsSplit p cs ≠ [] := by
  cases cs with
  | nil => simp [jsSplit]
  | cons c rest =>
    rw [jsSplit]
    cases h : jsSplit p rest with
    | nil => simp
    | cons seg r =>
      by_cases hp : p c
      · simp [hp]
      · simp [hp]

lemma jsSplit_of_noSep (p : Char → Bool) :
    ∀ cs : List Char, cs.any p = false → jsSplit p cs = [cs] := by
  intro cs
  induction cs with
  | nil => intro _; rfl
  | cons c rest ih =>
    intro h
    simp only [List.any_cons, Bool.or_eq_false_iff] at h
    rw [jsSplit, ih h.2]
    simp [h.1]

lemma jsSplit_singleton (p : Char → Bool) :
    ∀ cs seg, jsSplit p cs = [seg] → cs.any p = false ∧ seg = cs := by
  intro cs
  induction cs with
  | nil =>
    intro seg h
    rw [jsSplit] at h
    cases h
    exact ⟨rfl, rfl⟩
  | cons c rest ih =>
    intro seg h
    rw [jsSplit] at h
    cases hs : jsSplit p rest with
    | nil => exact absurd hs (jsSplit_ne_nil p rest)
    | cons s r =>
      rw [hs] at h
      by_cases hp : p c
      · simp [hp] at h
      · simp only [hp, Bool.false_eq_true, if_false] at h
        cases h
        have hr : jsSplit p rest = [s] := by rw [hs]
        obtain ⟨hany, hseg⟩ := ih s hr
        subst hseg
        simp [hp, hany]

lemma finalSegmentSpec_of_noSep (p : Char → Bool) :
    ∀ cs : List Char, cs.any p = false → finalSegmentSpec p cs = cs := by
  intro cs
  cases cs with
  | nil => intro _; rfl
  | cons c rest =>
    intro h
    simp only [List.any_cons, Bool.or_eq_false_iff] at h
    rw [finalSegmentSpec]
    simp [h.1, h.2]

lemma finalSegmentSpec_no_sep (p : Char → Bool) :
    ∀ cs : List Char, (finalSegmentSpec p cs).all (fun c => !(p c)) = true := by
  intro cs
  induction cs with
  | nil => rfl
  | cons c rest ih =>
    rw [finalSegmentSpec]
    by_cases ha : rest.any p = true
    · simp only [ha, if_true]
      exact ih
    · simp only [Bool.not_eq_true] at ha
      simp only [ha, Bool.false_eq_true, if_false]
      have hall : rest.all (fun c => !(p c)) = true := by
        rw [List.all_eq_true]
        intro x hx
        have hx2 := List.any_eq_false.mp ha x hx
        simp only [Bool.not_eq_true] at hx2
        simp [hx2]
      by_cases hp : p c
      · simp only [hp, if_true]
        exact hall
      · simp only [hp, Bool.false_eq_true, if_false, List.all_cons, hall, Bool.and_true]
        simp [hp]

lemma jsSplit_getLastD (p : Char → Bool) :
    ∀ cs : List Char, (jsSplit p cs).getLastD [] = finalSegmentSpec p cs := by
  intro cs
  induction cs with
  | nil => rfl
  | cons c rest ih =>
    rw [jsSplit]
    cases hs : jsSplit p rest with
    | nil => exact absurd hs (jsSplit_ne_nil p rest)
    | cons seg r =>
      by_cases hp : p c
      · simp only [hp, if_true]
        rw [List.getLastD_cons, ← hs, ih]
        by_cases ha : rest.any p = true
        · rw [finalSegmentSpec]
          simp [ha, hp]
        · simp only [Bool.not_eq_true] at ha
          rw [finalSegmentSpec]
          simp only [ha, Bool.false_eq_true, if_false, hp, if_true]
          exact finalSegmentSpec_of_noSep p rest ha
      · simp only [hp, Bool.false_eq_true, if_false]
        cases r with
        | nil =>
          have hsing : jsSplit p rest = [seg] := by rw [hs]
          obtain ⟨hany, hseg⟩ := jsSplit_singleton p rest seg hsing
          subst hseg
          rw [finalSegmentSpec]
          simp [hany, hp, List.getLastD]
        | cons r0 rs =>
          have hany : rest.any p = true := by
            by_contra hno
            simp only [Bool.not_eq_true] at hno
            rw [jsSplit_of_noSep p rest hno] at hs
            cases hs
          rw [finalSegmentSpec]
          simp only [hany, if_true]
          rw [← ih, hs]
          simp only [List.getLastD_cons]

/-- Claim C8: the download filename is the final path segment of the
artifact path, splitting on both slash and backslash — it contains no path
separator, it equals the suffix of the path after the last separator
(hence carries no leading directory components), and the link href is that
filename under /files/. -/
theorem download_filename_is_last_segment (path : String) :
    (downloadNameOf path).data.all (fun c => !(isSep c)) = true ∧
    (downloadNameOf path).data = finalSegmentSpec isSep path.data ∧
    downloadHrefOf path = "/files/" ++ downloadNameOf path := by
  refine ⟨?_, ?_, rfl⟩
  · show (downloadName path.data).all (fun c => !(isSep c)) = true
    rw [downloadName, jsSplit_getLastD]
    exact finalSegmentSpec_no_sep isSep path.data
  · show downloadName path.data = finalSegmentSpec isSep path.data
    rw [downloadName, jsSplit_getLastD]

lemma tick_bar_le {s : ClientState} (h : s.barWidth ≤ 90) (r : ℚ) :
    (tick r s).barWidth ≤ 90 := by
  rw [tick]
  by_cases ht : s.timerActive = true
  · simp only [ht, if_true]
    exact min_le_right _ _
  · simp only [Bool.not_eq_true] at ht
    simp only [ht, Bool.false_eq_true, if_false]
    exact h

/-- Claim C6: while the simulator runs — from startProgress through any
sequence of timer ticks with any random increments — the displayed
progress bar width stays at most 90 percent and never reaches 100. -/
theorem progress_capped_at_ninety (s : ClientState) (incs : List ℚ) :
    (runTicks incs (startProgress s)).barWidth ≤ 90 ∧
    (runTicks incs (startProgress s)).barWidth < 100 := by
  have key : ∀ (l : List ℚ) (st : ClientState), st.barWidth ≤ 90 →
      (runTicks l st).barWidth ≤ 90 := by
    intro l
    induction l with
    | nil => intro st h; exact h
    | cons r rest ih =>
      intro st h
      exact ih (tick r st) (tick_bar_le h r)
  have h0 : (startProgress s).barWidth ≤ 90 := by
    simp [startProgress]
  have h90 := key incs (startProgress s) h0
  exact ⟨h90, lt_of_le_of_lt h90 (by norm_num)⟩

/-- Claim C7: whenever the network call settles — parsed success, parsed
failure, or a thrown transport error — the finally block forces the bar to
100 percent, sets the phase label to Complete, re-enables the submit
button, and clears the simulation timer. -/
theorem resolve_forces_complete_state (o : Outcome) (s : ClientState) :
    (resolveSubmission o s).barWidth = 100 ∧
    (resolveSubmission o s).detailText = "Complete" ∧
    (resolveSubmission o s).btnDisabled = false ∧
    (resolveSubmission o s).timerActive = false := by
  cases o <;> simp [resolveSubmission, stopProgress, renderResult, showError]

/-- Claim C2, evaluated at the failing input: after a submission starts
the simulator (timer active), invoking closeAgent leaves the timer still
active — closeAgent never clears the interval, contrary to the claim that
closing the interaction clears it.  The timer is cleared only when the
network call itself settles (third conjunct). -/
theorem closeAgent_leaves_timer_running :
    (submitStart initState).timerActive = true ∧
    (closeAgent (submitStart initState)).timerActive = true ∧
    (resolveSubmission (.failure "boom") (closeAgent (submitStart initState))).timerActive
      = false :=
  ⟨rfl, rfl, rfl⟩

/-- Claim C3, counterexample: an option declared number whose value does
not parse as an integer does not make the submission fail with
InvalidOption — the handler still issues the request, carrying NaN (not an
integer) for that option. -/
theorem submit_sends_nan_for_unparsable_number :
    submitAction (some "presentation_gen") " Quarterly Review " [⟨"num_slides", "number", "abc"⟩]
      = .request "presentation_gen" "Quarterly Review" [("num_slides", .vNaN)] ∧
    ∀ n : Int, JSValue.vNaN = JSValue.vNum n → False := by
  exact ⟨rfl, fun n h => JSValue.noConfusion h⟩

/-- Claim C3 as amended: each option whose control type is number is run
through parseInt before being placed in the request options — a parsable
value is sent as that integer; an unparsable value is sent as NaN, and the
request is still issued (the frontend performs no InvalidOption
rejection). -/
theorem submit_number_option_coercion (agentId topicRaw : String) (fields : List FormField)
    (h : jsTrim topicRaw ≠ "") :
    submitAction (some agentId) topicRaw fields
      = .request agentId (jsTrim topicRaw) (gatherOptions fields) ∧
    ∀ f ∈ fields, f.fieldType = "number" →
      (f.name, match jsParseInt f.value with
               | some n => JSValue.vNum n
               | none => JSValue.vNaN) ∈ gatherOptions fields := by
  constructor
  · rw [submitAction]
    have hb : (jsTrim topicRaw == "") = false := by
      simp [h]
    simp [hb]
  · intro f hf htype
    rw [gatherOptions]
    apply List.mem_map.mpr
    refine ⟨f, hf, ?_⟩
    rw [coerceField, htype]
    simp

/-- Witness for the amended C3: a parsable number option is sent as the
integer 7. -/
theorem submit_number_option_coercion_witness :
    jsTrim " AI " ≠ "" ∧
    submitAction (some "presentation_gen") " AI " [⟨"num_slides", "number", "7"⟩]
      = .request "presentation_gen" "AI" (gatherOptions [⟨"num_slides", "number", "7"⟩]) ∧
    ("num_slides", JSValue.vNum 7) ∈ gatherOptions [⟨"num_slides", "number", "7"⟩] := by
  have h : jsTrim " AI " ≠ "" := by decide
  obtain ⟨h1, h2⟩ :=
    submit_number_option_coercion "presentation_gen" " AI " [⟨"num_slides", "number", "7"⟩] h
  refine ⟨h, ?_, ?_⟩
  · rw [h1]
    rfl
  · exact h2 ⟨"num_slides", "number", "7"⟩ (by simp) rfl

/-- Claim C5: a topic that is empty after trimming makes the submit
handler focus the input and issue no execution request; and (dispatcher
modelled from the spec, its implementation being outside this snapshot) a
request with such a topic for a registered agent is rejected as
InvalidInput with zero handler invocations. -/
theorem whitespace_topic_rejected (registry : List String)
    (schema : String → List OptionDef)
    (handler : String → String → List (String × JSValue) → JSValue)
    (agentId topicRaw : String) (fields : List FormField) (opts : List (String × JSValue))
    (hTopic : jsTrim topicRaw = "") (hAgent : registry.contains agentId = true) :
    submitAction (some agentId) topicRaw fields = .focusInput ∧
    execute registry schema handler agentId topicRaw opts = (.err .invalidInput, 0) := by
  constructor
  · rw [submitAction]
    simp [hTopic]
  · rw [execute]
    have hmem : agentId ∈ registry := List.mem_of_elem_eq_true hAgent
    simp [hAgent, hTopic, hmem]

/-- Witness for C5: a whitespace-only topic against a registry containing
the requested agent. -/
theorem whitespace_topic_rejected_witness :
    jsTrim "   " = "" ∧
    (["quiz_gen"] : List String).contains "quiz_gen" = true ∧
    submitAction (some "quiz_gen") "   " [] = .focusInput ∧
    execute ["quiz_gen"] (fun _ => []) (fun _ _ _ => .vNull) "quiz_gen" "   " []
      = (.err .invalidInput, 0) := by
  have h1 : jsTrim "   " = "" := by decide
  have h2 : (["quiz_gen"] : List String).contains "quiz_gen" = true := by decide
  obtain ⟨ha, hb⟩ := whitespace_topic_rejected ["quiz_gen"] (fun _ => [])
    (fun _ _ _ => .vNull) "quiz_gen" "   " [] [] h1 h2
  exact ⟨h1, h2, ha, hb⟩
